import Mathlib

/-!
Verification of the cfit core: the expression composer (`Pdf`) and the
three-body decay density (`Decay3Body`).

Numbers: C++ `double` is modelled by `ℚ` (exact arithmetic, no rounding);
the transcendental library functions (`std::pow`, `std::exp`, ...) are
supplied by an oracle structure, since no property below depends on their
values.  `std::map< std::string, T >` is modelled by a key-sorted
association list (`Smap`), with `insertKeep` for `std::map::insert`
(which keeps an existing entry on key collision) and `insertOver` for
`operator[]` assignment (which overwrites).
-/

namespace CFit

/-- Association-list model of `std::map< std::string, α >`.  Maps built by
the operations below from an empty or sorted map stay key-sorted, which is
what `std::map` guarantees; lemmas that need sortedness take it as a
hypothesis (`Smap.WF`). -/
abbrev Smap (α : Type) : Type := List (String × α)

/-- `std::map::find` / `count`: first entry with the given key. -/
def Smap.lookup {α : Type} : Smap α → String → Option α
  | [], _ => none
  | (k', v) :: rest, k => if k = k' then some v else Smap.lookup rest k

/-- The key list of a map (in storage order; sorted for well-formed maps).
`varNames()` / `parNames()` of the C++ models are exactly this list. -/
def Smap.keys {α : Type} (m : Smap α) : List String :=
  m.map Prod.fst

/-- `std::map::insert` of a single pair: inserted in key order, but an
existing entry with the same key is KEPT (not overwritten).  The key
comparison `k.data < k'.data` is definitionally the lexicographic string
order `k < k'` (spelled on the character lists so that it evaluates). -/
def Smap.insertKeep {α : Type} : Smap α → String → α → Smap α
  | [], k, v => [(k, v)]
  | (k', v') :: rest, k, v =>
    if k.data < k'.data then (k, v) :: (k', v') :: rest
    else if k = k' then (k', v') :: rest
    else (k', v') :: Smap.insertKeep rest k v

/-- `std::map::operator[] =`: inserted in key order, an existing entry with
the same key is overwritten. -/
def Smap.insertOver {α : Type} : Smap α → String → α → Smap α
  | [], k, v => [(k, v)]
  | (k', v') :: rest, k, v =>
    if k.data < k'.data then (k, v) :: (k', v') :: rest
    else if k = k' then (k', v) :: rest
    else (k', v') :: Smap.insertOver rest k v

/-- `dst.insert( src.begin(), src.end() )`: every pair of `src` is inserted
into `dst` in iteration order, existing keys of `dst` winning collisions. -/
def Smap.mergeKeep {α : Type} (dst src : Smap α) : Smap α :=
  src.foldl (fun m kv => Smap.insertKeep m kv.1 kv.2) dst

/-- Well-formedness of an `Smap`: strictly sorted keys, as `std::map`
maintains. -/
def Smap.WF {α : Type} (m : Smap α) : Prop :=
  List.Sorted (· < ·) (Smap.keys m)

/-- A cfit `Variable`: named scalar with value and uncertainty. -/
structure Variable where
  name  : String
  value : ℚ
  error : ℚ
  deriving DecidableEq

/-- A cfit `Parameter`: same shape as `Variable`, semantically a fit
parameter. -/
structure Parameter where
  name  : String
  value : ℚ
  error : ℚ
  deriving DecidableEq

/-- `Operation::Op`: the operator identifiers of the composer. -/
inductive Op where
  | plus | minus | mult | div | pow
  | exp | log | sin | cos | tan
  deriving DecidableEq

/-- Failure taxonomy.  The C++ core throws a single `PdfException`
carrying a message string; each constructor names one family of throw
sites, following the spec's taxonomy.  `iteratorOverrun` totalizes the
places where the C++ would walk an iterator past its container or
dereference `map::end()` (undefined behavior, reachable only from
malformed programs); no claim exercises it. -/
inductive PdfError where
  | argumentCountMismatch
  | unknownName
  | incompatibleVariables
  | overlappingVariables
  | dependency
  | stackUnderflow
  | malformedExpression
  | unknownOperator
  | iteratorOverrun
  deriving DecidableEq

/-- Oracle for the C math library functions used by `Pdf::operate`
(`std::pow`, `std::exp`, `std::log`, `std::sin`, `std::cos`, `std::tan`).
Their values never matter to the properties below. -/
structure MathOracle where
  rpow : ℚ → ℚ → ℚ
  rexp : ℚ → ℚ
  rlog : ℚ → ℚ
  rsin : ℚ → ℚ
  rcos : ℚ → ℚ
  rtan : ℚ → ℚ

/-- The polymorphic primitive-density contract (`PdfModel`).  The composer
treats models opaquely through their registries and `evaluate`
capabilities, so the virtual methods are function fields:
`eval0` is `evaluate()` on the model's own last-set state and `evalV` is
the positional `evaluate( vars )`. -/
structure PdfModel where
  varMap : Smap Variable
  parMap : Smap Parameter
  eval0  : ℚ
  evalV  : List ℚ → Except PdfError ℚ

/-- Modelled from the spec: a `ParameterExpr` is a parameter-only
sub-program; `Pdf::append( const ParameterExpr& )` reads exactly these
four components from it. -/
structure ParameterExpr where
  pars       : List Parameter
  opers      : List Op
  ctnts      : List ℚ
  expression : List Char

/-- The composer state (`class Pdf`): the flattened postfix program
`expression` over the parallel collections, plus the merged registries. -/
structure Pdf where
  varMap     : Smap Variable
  parMap     : Smap Parameter
  pdfs       : List PdfModel
  pars       : List Parameter
  ctnts      : List ℚ
  opers      : List Op
  expression : List Char

/-- A default-constructed `Pdf`. -/
def Pdf.empty : Pdf :=
  { varMap := [], parMap := [], pdfs := [], pars := [], ctnts := []
    opers := [], expression := [] }

/-- Modelled from the spec: `varNames()` returns the sorted unique
variable names, i.e. the key list of the variable map. -/
def PdfModel.varNames (m : PdfModel) : List String :=
  Smap.keys m.varMap

/-- Modelled from the spec: `Pdf::varNames()`, the key list of the
composite's variable map. -/
def Pdf.varNames (p : Pdf) : List String :=
  Smap.keys p.varMap

/-- `Pdf::append( const PdfModel& )`. -/
def Pdf.appendModel (p : Pdf) (m : PdfModel) : Pdf :=
  { p with
    varMap     := Smap.mergeKeep p.varMap m.varMap
    parMap     := Smap.mergeKeep p.parMap m.parMap
    pdfs       := p.pdfs ++ [m]
    expression := p.expression ++ ['m'] }

/-- `Pdf::append( const Pdf& )`. -/
def Pdf.appendPdf (p : Pdf) (q : Pdf) : Pdf :=
  { p with
    varMap     := Smap.mergeKeep p.varMap q.varMap
    parMap     := Smap.mergeKeep p.parMap q.parMap
    opers      := p.opers ++ q.opers
    ctnts      := p.ctnts ++ q.ctnts
    pars       := p.pars ++ q.pars
    pdfs       := p.pdfs ++ q.pdfs
    expression := p.expression ++ q.expression }

/-- `Pdf::append( const Parameter& )` (note `_parMap[ name ] = par`
overwrites). -/
def Pdf.appendParameter (p : Pdf) (par : Parameter) : Pdf :=
  { p with
    parMap     := Smap.insertOver p.parMap par.name par
    pars       := p.pars ++ [par]
    expression := p.expression ++ ['p'] }

/-- `Pdf::append( const ParameterExpr& )`. -/
def Pdf.appendParamExpr (p : Pdf) (e : ParameterExpr) : Pdf :=
  { p with
    parMap     := e.pars.foldl (fun mp q => Smap.insertOver mp q.name q) p.parMap
    opers      := p.opers ++ e.opers
    ctnts      := p.ctnts ++ e.ctnts
    pars       := p.pars ++ e.pars
    expression := p.expression ++ e.expression }

/-- `Pdf::append( const double& )`. -/
def Pdf.appendConst (p : Pdf) (c : ℚ) : Pdf :=
  { p with
    ctnts      := p.ctnts ++ [c]
    expression := p.expression ++ ['c'] }

/-- `Pdf::append( const Operation::Op& )`: note the token recorded for a
binary operator is the character `b`. -/
def Pdf.appendOp (p : Pdf) (op : Op) : Pdf :=
  { p with
    opers      := p.opers ++ [op]
    expression := p.expression ++ ['b'] }

/-- `Pdf::operator=( const PdfModel& )` on a default-constructed `Pdf`. -/
def Pdf.ofModel (m : PdfModel) : Pdf :=
  Pdf.empty.appendModel m

/-- `std::set_intersection` on two sorted string ranges (the comparison
`a.data < b.data` is definitionally the string order `a < b`). -/
def setIntersection : List String → List String → List String
  | [], _ => []
  | _ :: _, [] => []
  | a :: as, b :: bs =>
    if a.data < b.data then setIntersection as (b :: bs)
    else if b.data < a.data then setIntersection (a :: as) bs
    else a :: setIntersection as bs
  termination_by xs ys => xs.length + ys.length

/-- `std::set_union` on two sorted string ranges. -/
def setUnion : List String → List String → List String
  | [], ys => ys
  | x :: xs, [] => x :: xs
  | a :: as, b :: bs =>
    if a.data < b.data then a :: setUnion as (b :: bs)
    else if b.data < a.data then b :: setUnion (a :: as) bs
    else a :: setUnion as bs
  termination_by xs ys => xs.length + ys.length

/-- `Pdf::operator+=( const PdfModel& )`: identical sorted variable-name
lists required, checked before anything is appended; on failure the C++
throws before mutating, so the composite is unchanged (here: no state is
returned). -/
def Pdf.plusAssignModel (p : Pdf) (m : PdfModel) : Except PdfError Pdf :=
  if p.varNames ≠ m.varNames then .error .incompatibleVariables
  else .ok ((p.appendModel m).appendOp .plus)

/-- `Pdf::operator*=( const PdfModel& )`: the sorted intersection of the
variable-name lists must be empty, checked before anything is appended. -/
def Pdf.mulAssignModel (p : Pdf) (m : PdfModel) : Except PdfError Pdf :=
  if setIntersection p.varNames m.varNames ≠ [] then .error .overlappingVariables
  else .ok ((p.appendModel m).appendOp .mult)

/-- `Pdf::operator+=( const Pdf& )`. -/
def Pdf.plusAssignPdf (p : Pdf) (q : Pdf) : Except PdfError Pdf :=
  if p.varNames ≠ q.varNames then .error .incompatibleVariables
  else .ok ((p.appendPdf q).appendOp .plus)

/-- `Pdf::operator*=( const Pdf& )`. -/
def Pdf.mulAssignPdf (p : Pdf) (q : Pdf) : Except PdfError Pdf :=
  if setIntersection p.varNames q.varNames ≠ [] then .error .overlappingVariables
  else .ok ((p.appendPdf q).appendOp .mult)

/-- `Pdf::operator*=( const Parameter& )` (never fails). -/
def Pdf.mulAssignParameter (p : Pdf) (par : Parameter) : Pdf :=
  (p.appendParameter par).appendOp .mult

/-- `Pdf::operator/=( const Parameter& )`. -/
def Pdf.divAssignParameter (p : Pdf) (par : Parameter) : Pdf :=
  (p.appendParameter par).appendOp .div

/-- `Pdf::operator*=( const ParameterExpr& )`. -/
def Pdf.mulAssignParamExpr (p : Pdf) (e : ParameterExpr) : Pdf :=
  (p.appendParamExpr e).appendOp .mult

/-- `Pdf::operator/=( const ParameterExpr& )`. -/
def Pdf.divAssignParamExpr (p : Pdf) (e : ParameterExpr) : Pdf :=
  (p.appendParamExpr e).appendOp .div

/-- `Pdf::operator*=( const double& )`. -/
def Pdf.mulAssignConst (p : Pdf) (c : ℚ) : Pdf :=
  (p.appendConst c).appendOp .mult

/-- `Pdf::operator/=( const double& )`. -/
def Pdf.divAssignConst (p : Pdf) (c : ℚ) : Pdf :=
  (p.appendConst c).appendOp .div

/-- `Pdf::operate( x, y, oper )`: the binary operations.  Division is the
raw quotient `x / y`, with no check on the divisor. -/
def Pdf.operate (M : MathOracle) (x y : ℚ) (oper : Op) : Except PdfError ℚ :=
  match oper with
  | .plus  => .ok (x + y)
  | .minus => .ok (x - y)
  | .mult  => .ok (x * y)
  | .div   => .ok (x / y)
  | .pow   => .ok (M.rpow x y)
  | _      => .error .unknownOperator

/-- `Pdf::operate( x, oper )`: the unary operations. -/
def Pdf.operateUnary (M : MathOracle) (x : ℚ) (oper : Op) : Except PdfError ℚ :=
  match oper with
  | .minus => .ok (-x)
  | .exp   => .ok (M.rexp x)
  | .log   => .ok (M.rlog x)
  | .sin   => .ok (M.rsin x)
  | .cos   => .ok (M.rcos x)
  | .tan   => .ok (M.rtan x)
  | _      => .error .unknownOperator

/-- The token loop of `Pdf::evaluate()`: the program characters drive an
explicit operand stack, with parallel iterators over the model, parameter,
constant and operator collections.  A parameter leaf is looked up in the
composite's parameter map by the stored parameter's name. -/
def Pdf.evalGo (M : MathOracle) (parMap : Smap Parameter) :
    List Char → List PdfModel → List Parameter → List ℚ → List Op →
    List ℚ → Except PdfError ℚ
  | [], _, _, _, _, stack =>
    match stack with
    | [v] => .ok v
    | _ => .error .malformedExpression
  | c :: cs, pdfs, pars, ctts, ops, stack =>
    if c = 'm' then
      match pdfs with
      | [] => .error .iteratorOverrun
      | mo :: ms => Pdf.evalGo M parMap cs ms pars ctts ops (mo.eval0 :: stack)
    else if c = 'p' then
      match pars with
      | [] => .error .iteratorOverrun
      | q :: qs =>
        match Smap.lookup parMap q.name with
        | none => .error .iteratorOverrun
        | some pr => Pdf.evalGo M parMap cs pdfs qs ctts ops (pr.value :: stack)
    else if c = 'c' then
      match ctts with
      | [] => .error .iteratorOverrun
      | t :: ts => Pdf.evalGo M parMap cs pdfs pars ts ops (t :: stack)
    else if c = 'b' then
      match stack with
      | y :: x :: rest =>
        match ops with
        | [] => .error .iteratorOverrun
        | op :: ops' =>
          match Pdf.operate M x y op with
          | .error e => .error e
          | .ok v => Pdf.evalGo M parMap cs pdfs pars ctts ops' (v :: rest)
      | _ => .error .stackUnderflow
    else if c = 'u' then
      match stack with
      | x :: rest =>
        match ops with
        | [] => .error .iteratorOverrun
        | op :: ops' =>
          match Pdf.operateUnary M x op with
          | .error e => .error e
          | .ok v => Pdf.evalGo M parMap cs pdfs pars ctts ops' (v :: rest)
      | _ => .error .stackUnderflow
    else .error .unknownOperator

/-- `Pdf::evaluate()`: run the token program on the stored state. -/
def Pdf.evaluate (M : MathOracle) (p : Pdf) : Except PdfError ℚ :=
  Pdf.evalGo M p.parMap p.expression p.pdfs p.pars p.ctnts p.opers []

/-- The model-leaf step of the vectorized `Pdf::evaluate( vars )`: slice
the caller's values (keyed through `localVars`) down to the model's own
sorted variable list, then call the model's positional `evaluate`.  The
C++ dereferences `localVars.find( name )` without checking; a missing
name (impossible under the composer invariant) is totalized as
`iteratorOverrun`. -/
def Pdf.sliceEval (localVars : Smap ℚ) (mo : PdfModel) : Except PdfError ℚ :=
  match (Smap.keys mo.varMap).mapM (fun k => Smap.lookup localVars k) with
  | none => .error .iteratorOverrun
  | some modelVars => mo.evalV modelVars

/-- The token loop of `Pdf::evaluate( vars )`. -/
def Pdf.evalVGo (M : MathOracle) (parMap : Smap Parameter) (localVars : Smap ℚ) :
    List Char → List PdfModel → List Parameter → List ℚ → List Op →
    List ℚ → Except PdfError ℚ
  | [], _, _, _, _, stack =>
    match stack with
    | [v] => .ok v
    | _ => .error .malformedExpression
  | c :: cs, pdfs, pars, ctts, ops, stack =>
    if c = 'm' then
      match pdfs with
      | [] => .error .iteratorOverrun
      | mo :: ms =>
        match Pdf.sliceEval localVars mo with
        | .error e => .error e
        | .ok v => Pdf.evalVGo M parMap localVars cs ms pars ctts ops (v :: stack)
    else if c = 'p' then
      match pars with
      | [] => .error .iteratorOverrun
      | q :: qs =>
        match Smap.lookup parMap q.name with
        | none => .error .iteratorOverrun
        | some pr => Pdf.evalVGo M parMap localVars cs pdfs qs ctts ops (pr.value :: stack)
    else if c = 'c' then
      match ctts with
      | [] => .error .iteratorOverrun
      | t :: ts => Pdf.evalVGo M parMap localVars cs pdfs pars ts ops (t :: stack)
    else if c = 'b' then
      match stack with
      | y :: x :: rest =>
        match ops with
        | [] => .error .iteratorOverrun
        | op :: ops' =>
          match Pdf.operate M x y op with
          | .error e => .error e
          | .ok v => Pdf.evalVGo M parMap localVars cs pdfs pars ctts ops' (v :: rest)
      | _ => .error .stackUnderflow
    else if c = 'u' then
      match stack with
      | x :: rest =>
        match ops with
        | [] => .error .iteratorOverrun
        | op :: ops' =>
          match Pdf.operateUnary M x op with
          | .error e => .error e
          | .ok v => Pdf.evalVGo M parMap localVars cs pdfs pars ctts ops' (v :: rest)
      | _ => .error .stackUnderflow
    else .error .unknownOperator

/-- `Pdf::evaluate( const std::vector< double >& vars )`: length must match
the variable count, then the values are keyed to the sorted variable names
(`localVars`) and the program is run. -/
def Pdf.evaluateV (M : MathOracle) (p : Pdf) (vars : List ℚ) : Except PdfError ℚ :=
  if p.varMap.length ≠ vars.length then .error .argumentCountMismatch
  else
    Pdf.evalVGo M p.parMap ((Smap.keys p.varMap).zip vars)
      p.expression p.pdfs p.pars p.ctnts p.opers []

/-- The token loop of `Pdf::commonVars()`.  Mirrors the source exactly:
the `varNames` accumulator is NEVER cleared between model leaves, so a
model leaf pushes the concatenation of all model key lists seen so far;
and the operator branch compares the token character against the literal
characters `+` and `*`, although binary operators are recorded in the
program as the character `b` — when neither matches, the cleared (empty)
vector `z` is pushed. -/
def Pdf.commonVarsGo :
    List Char → List PdfModel → List String → List (List String) →
    Except PdfError (List String)
  | [], _, _, calcs =>
    match calcs with
    | [z] => .ok z
    | _ => .error .malformedExpression
  | c :: cs, models, varNames, calcs =>
    if c = 'm' then
      match models with
      | [] => .error .iteratorOverrun
      | mo :: ms =>
        Pdf.commonVarsGo cs ms (varNames ++ Smap.keys mo.varMap)
          ((varNames ++ Smap.keys mo.varMap) :: calcs)
    else if c = 'p' then
      Pdf.commonVarsGo cs models varNames ([] :: calcs)
    else
      match calcs with
      | x :: y :: rest =>
        Pdf.commonVarsGo cs models varNames
          ((if c = '+' then setIntersection x y
            else if c = '*' then setUnion x y
            else []) :: rest)
      | _ => .error .stackUnderflow

/-- `Pdf::commonVars()`. -/
def Pdf.commonVars (p : Pdf) : Except PdfError (List String) :=
  Pdf.commonVarsGo p.expression p.pdfs [] []

/-- Modelled from the spec: the phase-space geometry collaborator, consumed
as bounding values per kinematic variable, particle masses, a mass-sum,
and a containment predicate for `(mSq12, mSq13, mSq23)`. -/
structure PhaseSpace where
  mSq12min : ℚ
  mSq12max : ℚ
  mSq13min : ℚ
  mSq13max : ℚ
  mSq23min : ℚ
  mSq23max : ℚ
  mMother  : ℚ
  m1       : ℚ
  m2       : ℚ
  m3       : ℚ
  contains : ℚ → ℚ → ℚ → Bool

/-- Modelled from the spec: squared mother mass accessor. -/
def PhaseSpace.mSqMother (ps : PhaseSpace) : ℚ := ps.mMother ^ 2

/-- Modelled from the spec: squared first-daughter mass accessor. -/
def PhaseSpace.mSq1 (ps : PhaseSpace) : ℚ := ps.m1 ^ 2

/-- Modelled from the spec: squared second-daughter mass accessor. -/
def PhaseSpace.mSq2 (ps : PhaseSpace) : ℚ := ps.m2 ^ 2

/-- Modelled from the spec: squared third-daughter mass accessor. -/
def PhaseSpace.mSq3 (ps : PhaseSpace) : ℚ := ps.m3 ^ 2

/-- Modelled from the spec: the mass-sum `mSqSum()`, the sum of the squared
invariant masses of mother and daughters (as `Decay3Body::generate`
spells out). -/
def PhaseSpace.mSqSum (ps : PhaseSpace) : ℚ :=
  ps.mSqMother + ps.mSq1 + ps.mSq2 + ps.mSq3

/-- Modelled from the spec: the amplitude collaborator,
`evaluate( geometry, mSq12, mSq13, mSq23 ) → complex value`, an opaque
complex-valued function; the pair is `(re, im)`. -/
structure Amplitude where
  eval : PhaseSpace → ℚ → ℚ → ℚ → ℚ × ℚ

/-- `std::norm` of a complex value: the squared modulus. -/
def Amplitude.normSq (z : ℚ × ℚ) : ℚ := z.1 ^ 2 + z.2 ^ 2

/-- Modelled from the spec: the auxiliary scalar function collaborator,
consumed as name-dependency plus evaluate capabilities together with its
own variable and parameter maps; `dependsOn( name )` holds exactly when
`name` is a key of its variable map. -/
structure Function where
  varMap : Smap Variable
  parMap : Smap Parameter
  eval   : Smap ℚ → ℚ

/-- `Function::dependsOn( name )`. -/
def Function.dependsOn (f : Function) (n : String) : Bool :=
  (Smap.lookup f.varMap n).isSome

/-- The three-body decay density (`class Decay3Body`).  `name12`, `name13`
and `name23` are the names of the three kinematic variables in declaration
order (`getVar( 0 / 1 / 2 )`); `varMap`/`parMap` are the registries of the
`PdfModel` base, `norm` the stored normalization, `funcs` the ordered
auxiliary-factor list, and `maxPdf` the generation envelope bound (14.0 at
construction). -/
structure Decay3Body where
  name12 : String
  name13 : String
  name23 : String
  varMap : Smap Variable
  parMap : Smap Parameter
  amp    : Amplitude
  ps     : PhaseSpace
  norm   : ℚ
  funcs  : List Function
  maxPdf : ℚ

/-- `Decay3Body::evaluateFuncs( mSq12, mSq13, mSq23 )`: multiply every
registered auxiliary factor, each evaluated on a name-to-value map holding
the kinematic variables it depends on.  The C++ local `varMap` accumulates
across the factor loop (it is declared outside and never cleared), which
the fold state reproduces; the product is floored at zero. -/
def Decay3Body.evaluateFuncs (d : Decay3Body) (mSq12 mSq13 mSq23 : ℚ) : ℚ :=
  let step : ℚ × Smap ℚ → Function → ℚ × Smap ℚ := fun s f =>
    let m1 := if f.dependsOn d.name12 then Smap.insertOver s.2 d.name12 mSq12 else s.2
    let m2 := if f.dependsOn d.name13 then Smap.insertOver m1 d.name13 mSq13 else m1
    let m3 := if f.dependsOn d.name23 then Smap.insertOver m2 d.name23 mSq23 else m2
    (s.1 * f.eval m3, m3)
  max (d.funcs.foldl step (1, [])).1 0

/-- The grid integrand of `Decay3Body::cache()` at bin `(binX, binY)`:
both axes place bin centers from `min` with the SAME step — `min` and
`step` are derived from the `mSq12` bounds only — and a center
contributes `|amplitude|² × auxiliaryProduct` exactly when the phase-space
containment test accepts it. -/
def Decay3Body.cacheTerm (d : Decay3Body) (lo step : ℚ) (binX binY : ℕ) : ℚ :=
  let mSq12 := lo + step * ((binX : ℚ) + 1/2)
  let mSq13 := lo + step * ((binY : ℚ) + 1/2)
  let mSq23 := d.ps.mSqSum - mSq12 - mSq13
  if d.ps.contains mSq12 mSq13 mSq23 then
    Amplitude.normSq (d.amp.eval d.ps mSq12 mSq13 mSq23) * d.evaluateFuncs mSq12 mSq13 mSq23
  else 0

/-- The loop body of `Decay3Body::cache()` at bin `(binX, binY)`:
`if ( ps.contains( ... ) ) norm += |amplitude|² × auxiliaryProduct`, on the
accumulator `acc`. -/
def Decay3Body.cacheBody (d : Decay3Body) (lo step : ℚ) (binX binY : ℕ) (acc : ℚ) : ℚ :=
  let mSq12 := lo + step * ((binX : ℚ) + 1/2)
  let mSq13 := lo + step * ((binY : ℚ) + 1/2)
  let mSq23 := d.ps.mSqSum - mSq12 - mSq13
  if d.ps.contains mSq12 mSq13 mSq23 then
    acc + Amplitude.normSq (d.amp.eval d.ps mSq12 mSq13 mSq23)
      * d.evaluateFuncs mSq12 mSq13 mSq23
  else acc

/-- The normalization computed by `Decay3Body::cache()`: the nested
400×400 accumulation loop of the source — note `min`, `max` and `step`
come from the `mSq12` bounds and drive BOTH axes — with the accumulated
sum finally multiplied by `step²`. -/
def Decay3Body.cacheNorm (d : Decay3Body) : ℚ :=
  let nBins : ℕ := 400
  let lo := d.ps.mSq12min
  let hi := d.ps.mSq12max
  let step := (hi - lo) / (nBins : ℚ)
  ((List.range nBins).foldl
    (fun acc binX =>
      (List.range nBins).foldl (fun acc binY => d.cacheBody lo step binX binY acc) acc)
    0) * step ^ 2

/-- `Decay3Body::cache()`: store the recomputed normalization. -/
def Decay3Body.cache (d : Decay3Body) : Decay3Body :=
  { d with norm := d.cacheNorm }

/-- `Decay3Body::evaluate( mSq12, mSq13, mSq23 )`. -/
def Decay3Body.evaluate3 (d : Decay3Body) (mSq12 mSq13 mSq23 : ℚ) : ℚ :=
  Amplitude.normSq (d.amp.eval d.ps mSq12 mSq13 mSq23)
    * d.evaluateFuncs mSq12 mSq13 mSq23 / d.norm

/-- `Decay3Body::evaluate( mSq12, mSq13 )`: the third variable is derived
from the kinematic constraint. -/
def Decay3Body.evaluate2 (d : Decay3Body) (mSq12 mSq13 : ℚ) : ℚ :=
  let mSq23 := d.ps.mSqSum - mSq12 - mSq13
  Amplitude.normSq (d.amp.eval d.ps mSq12 mSq13 mSq23)
    * d.evaluateFuncs mSq12 mSq13 mSq23 / d.norm

/-- `Decay3Body::evaluate( const std::vector< double >& vars )`: dispatch
on the vector length — two or three arguments are accepted, anything else
throws (`"Decay3Body can only take either 2 or 3 arguments."`). -/
def Decay3Body.evaluateV (d : Decay3Body) (vars : List ℚ) : Except PdfError ℚ :=
  match vars with
  | [a, b] => .ok (d.evaluate2 a b)
  | [a, b, c] => .ok (d.evaluate3 a b c)
  | _ => .error .argumentCountMismatch

/-- The successful result of `Decay3Body::operator*=( const Function& )`:
the function's parameters are range-inserted into the density's parameter
map (existing entries win collisions), the function is appended to the
auxiliary list, and the normalization is recomputed by `cache()` on the
updated state. -/
def Decay3Body.mulFuncResult (d : Decay3Body) (f : Function) : Decay3Body :=
  let d' := { d with parMap := Smap.mergeKeep d.parMap f.parMap
                     funcs := d.funcs ++ [f] }
  { d' with norm := d'.cacheNorm }

/-- `Decay3Body::operator*=( const Function& )`: every variable the
function depends on must already be a declared variable of the density;
the check runs over the function's whole variable map before any mutation,
so a failure throws with the density untouched. -/
def Decay3Body.mulFunc (d : Decay3Body) (f : Function) : Except PdfError Decay3Body :=
  if (Smap.keys f.varMap).all (fun k => (Smap.lookup d.varMap k).isSome) then
    .ok (d.mulFuncResult f)
  else .error .dependency

/-- Modelled from the spec: the uniform random source `flat( min, max )`.
The oracle stream supplies one unit draw `u` per call and the result is
`min + u * (max - min)`. -/
def flatOut (lo hi u : ℚ) : ℚ := lo + u * (hi - lo)

/-- The name-to-value map built by `Decay3Body::generate()` for a
candidate point (`values[ name ] = v` on a `std::map`). -/
def Decay3Body.mkPoint (d : Decay3Body) (a b c : ℚ) : Smap ℚ :=
  Smap.insertOver (Smap.insertOver (Smap.insertOver [] d.name12 a) d.name13 b) d.name23 c

/-- The lower `mSq12` sampling bound of `generate()`: `(m1 + m2)²`. -/
def Decay3Body.gen12min (d : Decay3Body) : ℚ := (d.ps.m1 + d.ps.m2) ^ 2

/-- The lower `mSq13` sampling bound of `generate()`: `(m1 + m3)²`. -/
def Decay3Body.gen13min (d : Decay3Body) : ℚ := (d.ps.m1 + d.ps.m3) ^ 2

/-- The upper `mSq12` sampling bound of `generate()`: `(mMother - m3)²`. -/
def Decay3Body.gen12max (d : Decay3Body) : ℚ := (d.ps.mMother - d.ps.m3) ^ 2

/-- The upper `mSq13` sampling bound of `generate()`: `(mMother - m2)²`. -/
def Decay3Body.gen13max (d : Decay3Body) : ℚ := (d.ps.mMother - d.ps.m2) ^ 2

/-- The candidate point of attempt `k` of `generate()`: `mSq12` and
`mSq13` drawn flat from their kinematic bounding intervals (unit draws
`rand (3k)` and `rand (3k+1)`), `mSq23` from the mass-sum constraint. -/
def Decay3Body.genPoint (d : Decay3Body) (rand : ℕ → ℚ) (k : ℕ) : ℚ × ℚ × ℚ :=
  let mSq12 := flatOut d.gen12min d.gen12max (rand (3 * k))
  let mSq13 := flatOut d.gen13min d.gen13max (rand (3 * k + 1))
  (mSq12, mSq13, d.ps.mSqSum - mSq12 - mSq13)

/-- The accept-reject decision of attempt `k`: a flat draw in
`[0, maxPdf)` (unit draw `rand (3k+2)`) strictly below the density value
accepts the candidate. -/
def Decay3Body.genAccept (d : Decay3Body) (rand : ℕ → ℚ) (k : ℕ) : Bool :=
  let q := d.genPoint rand k
  flatOut 0 d.maxPdf (rand (3 * k + 2)) < d.evaluate3 q.1 q.2.1 q.2.2

/-- The sampling loop of `Decay3Body::generate()`: attempt `k` with
`fuel` attempts remaining; when the budget is exhausted the three entries
are overwritten with zeros (the degenerate all-zero fallback point). -/
def Decay3Body.generateFrom (d : Decay3Body) (rand : ℕ → ℚ) (k : ℕ) :
    ℕ → Smap ℚ
  | 0 => d.mkPoint 0 0 0
  | fuel + 1 =>
    let q := d.genPoint rand k
    if d.genAccept rand k then d.mkPoint q.1 q.2.1 q.2.2
    else d.generateFrom rand (k + 1) fuel

/-- `Decay3Body::generate()`: rejection sampling with a fixed budget of
10000 attempts. -/
def Decay3Body.generate (d : Decay3Body) (rand : ℕ → ℚ) : Smap ℚ :=
  d.generateFrom rand 0 10000

/-- The spec's grid integral for `cache()` as the code performs it: a
400×400 midpoint-rule sum whose bin centers on BOTH axes come from the
`mSq12` bounds (one shared `min`, `max` and `step`), each accepted center
contributing `|amplitude|² × auxiliaryProduct`, the sum multiplied by the
bin area `step²`. -/
def Decay3Body.gridIntegralShared (d : Decay3Body) : ℚ :=
  let n : ℕ := 400
  let lo := d.ps.mSq12min
  let step := (d.ps.mSq12max - lo) / (n : ℚ)
  (∑ b in Finset.range n ×ˢ Finset.range n, d.cacheTerm lo step b.1 b.2) * step ^ 2

/-- Definition following the words of claim C2: a 400×400 midpoint-rule
sum where the bin centers of EACH axis are placed from that axis's own
bounds (`mSq12` bounds on the first axis, `mSq13` bounds on the second),
multiplied by the bin area `step12 × step13`. -/
def Decay3Body.gridIntegralOwnAxes (d : Decay3Body) : ℚ :=
  let n : ℕ := 400
  let lo12 := d.ps.mSq12min
  let step12 := (d.ps.mSq12max - lo12) / (n : ℚ)
  let lo13 := d.ps.mSq13min
  let step13 := (d.ps.mSq13max - lo13) / (n : ℚ)
  (∑ b in Finset.range n ×ˢ Finset.range n,
    (let mSq12 := lo12 + step12 * ((b.1 : ℚ) + 1/2)
     let mSq13 := lo13 + step13 * ((b.2 : ℚ) + 1/2)
     let mSq23 := d.ps.mSqSum - mSq12 - mSq13
     if d.ps.contains mSq12 mSq13 mSq23 then
       Amplitude.normSq (d.amp.eval d.ps mSq12 mSq13 mSq23)
         * d.evaluateFuncs mSq12 mSq13 mSq23
     else 0)) * (step12 * step13)

/-- The composer invariant: every variable name and parameter name
declared by an embedded model is a key of the composite's own variable
map and parameter map. -/
def Pdf.Inv (p : Pdf) : Prop :=
  ∀ m ∈ p.pdfs,
    (∀ k ∈ Smap.keys m.varMap, (Smap.lookup p.varMap k).isSome = true)
    ∧ (∀ k ∈ Smap.keys m.parMap, (Smap.lookup p.parMap k).isSome = true)

/-- A math oracle for witnesses; the values are irrelevant. -/
def trivOracle : MathOracle :=
  { rpow := fun x _ => x, rexp := id, rlog := id, rsin := id, rcos := id
    rtan := id }

/-- A concrete single-variable stub model over `x` (always returns 2). -/
def mA : PdfModel :=
  { varMap := [("x", ⟨"x", 0, 0⟩)], parMap := [], eval0 := 2
    evalV := fun _ => .ok 2 }

/-- A concrete single-variable stub model over `y` (always returns 3). -/
def mB : PdfModel :=
  { varMap := [("y", ⟨"y", 0, 0⟩)], parMap := [], eval0 := 3
    evalV := fun _ => .ok 3 }

/-- The composite program `A × B` built through the public API (its token
program is `m m b`). -/
def pdfAB : Pdf :=
  ((Pdf.ofModel mA).appendModel mB).appendOp .mult

/-- A constant-program `a ÷ b` built through the public API (`c c b`). -/
def divProgram (a b : ℚ) : Pdf :=
  ((Pdf.empty.appendConst a).appendConst b).appendOp .div

/-- A unit amplitude: constant complex value `1 + 0i`. -/
def unitAmp : Amplitude := ⟨fun _ _ _ _ => (1, 0)⟩

/-- The standard three-variable registry of a decay density. -/
def threeVars : Smap Variable :=
  [("m12", ⟨"m12", 0, 0⟩), ("m13", ⟨"m13", 0, 0⟩), ("m23", ⟨"m23", 0, 0⟩)]

/-- A phase space whose `mSq12` bounds (`[0,1]`) differ from its `mSq13`
bounds (`[0,2]`), with an all-accepting containment test. -/
def psAsym : PhaseSpace :=
  { mSq12min := 0, mSq12max := 1, mSq13min := 0, mSq13max := 2
    mSq23min := 0, mSq23max := 1, mMother := 0, m1 := 0, m2 := 0, m3 := 0
    contains := fun _ _ _ => true }

/-- A phase space with mother mass 2, massless daughters, and an
all-REJECTING containment test. -/
def psNone : PhaseSpace :=
  { mSq12min := 0, mSq12max := 4, mSq13min := 0, mSq13max := 4
    mSq23min := 0, mSq23max := 4, mMother := 2, m1 := 0, m2 := 0, m3 := 0
    contains := fun _ _ _ => false }

/-- A concrete decay density over `psAsym` with unit amplitude, no
auxiliary factors and stored normalization 1. -/
def dAsym : Decay3Body :=
  { name12 := "m12", name13 := "m13", name23 := "m23", varMap := threeVars
    parMap := [], amp := unitAmp, ps := psAsym, norm := 1, funcs := []
    maxPdf := 14 }

/-- A concrete decay density over `psNone` with unit amplitude, no
auxiliary factors and stored normalization 1. -/
def dNone : Decay3Body :=
  { name12 := "m12", name13 := "m13", name23 := "m23", varMap := threeVars
    parMap := [], amp := unitAmp, ps := psNone, norm := 1, funcs := []
    maxPdf := 14 }

/-- A concrete decay density carrying parameter `a ↦ 1`. -/
def dPar : Decay3Body :=
  { dNone with parMap := [("a", ⟨"a", 1, 0⟩)] }

/-- An auxiliary function depending on the foreign variable `q`. -/
def funcForeign : Function :=
  { varMap := [("q", ⟨"q", 0, 0⟩)], parMap := [], eval := fun _ => 1 }

/-- An auxiliary function with no variables, carrying parameter `a ↦ 2`
(colliding with `dPar`'s entry). -/
def funcParA : Function :=
  { varMap := [], parMap := [("a", ⟨"a", 2, 0⟩)], eval := fun _ => 1 }

/-! ## Map lemmas -/

theorem strLt_iff (a b : String) : a.data < b.data ↔ a < b :=
  Iff.symm String.lt_iff_toList_lt

theorem Smap.lookup_isSome_iff_mem_keys {α : Type} (m : Smap α) (k : String) :
    (Smap.lookup m k).isSome = true ↔ k ∈ Smap.keys m := by
  induction m with
  | nil => simp [Smap.lookup, Smap.keys]
  | cons kv rest ih =>
    obtain ⟨k', v⟩ := kv
    by_cases h : k = k' <;> simp [Smap.lookup, Smap.keys, h, ih]

theorem Smap.lookup_insertKeep_isSome {α : Type} (m : Smap α) (k j : String) (v : α) :
    (Smap.lookup (Smap.insertKeep m k v) j).isSome = true
      ↔ j = k ∨ (Smap.lookup m j).isSome = true := by
  induction m with
  | nil => by_cases h : j = k <;> simp [Smap.insertKeep, Smap.lookup, h]
  | cons kv rest ih =>
    obtain ⟨k', v'⟩ := kv
    simp only [Smap.insertKeep]
    by_cases h1 : k.data < k'.data
    · simp only [if_pos h1]
      by_cases h2 : j = k <;> by_cases h3 : j = k' <;>
        simp [Smap.lookup, h2, h3] <;> try (split <;> simp)
    · simp only [if_neg h1]
      by_cases he : k = k'
      · simp only [if_pos he]
        constructor
        · exact fun h => Or.inr h
        · rintro (rfl | h)
          · simp [Smap.lookup, he]
          · exact h
      · simp only [if_neg he]
        by_cases h3 : j = k' <;> simp [Smap.lookup, h3, ih]

theorem Smap.lookup_insertOver_isSome {α : Type} (m : Smap α) (k j : String) (v : α) :
    (Smap.lookup (Smap.insertOver m k v) j).isSome = true
      ↔ j = k ∨ (Smap.lookup m j).isSome = true := by
  induction m with
  | nil => by_cases h : j = k <;> simp [Smap.insertOver, Smap.lookup, h]
  | cons kv rest ih =>
    obtain ⟨k', v'⟩ := kv
    simp only [Smap.insertOver]
    by_cases h1 : k.data < k'.data
    · simp only [if_pos h1]
      by_cases h2 : j = k <;> by_cases h3 : j = k' <;>
        simp [Smap.lookup, h2, h3] <;> try (split <;> simp)
    · simp only [if_neg h1]
      by_cases he : k = k'
      · simp only [if_pos he]
        by_cases h3 : j = k' <;> simp [Smap.lookup, h3, he]
      · simp only [if_neg he]
        by_cases h3 : j = k' <;> simp [Smap.lookup, h3, ih]

theorem Smap.lookup_mergeKeep_isSome {α : Type} (dst src : Smap α) (j : String) :
    (Smap.lookup (Smap.mergeKeep dst src) j).isSome = true
      ↔ (Smap.lookup dst j).isSome = true ∨ (Smap.lookup src j).isSome = true := by
  induction src generalizing dst with
  | nil => simp [Smap.mergeKeep, Smap.lookup]
  | cons kv rest ih =>
    obtain ⟨k, v⟩ := kv
    have hstep : Smap.mergeKeep dst ((k, v) :: rest)
        = Smap.mergeKeep (Smap.insertKeep dst k v) rest := rfl
    rw [hstep, ih]
    by_cases h : j = k <;>
      simp [Smap.lookup_insertKeep_isSome, Smap.lookup, h, or_assoc]

theorem Smap.mem_keys_insertKeep {α : Type} (m : Smap α) (k b : String) (v : α)
    (hb : b ∈ Smap.keys (Smap.insertKeep m k v)) : b = k ∨ b ∈ Smap.keys m := by
  induction m with
  | nil => simpa [Smap.insertKeep, Smap.keys] using hb
  | cons kv rest ih =>
    obtain ⟨k', v'⟩ := kv
    simp only [Smap.insertKeep] at hb
    by_cases h1 : k.data < k'.data
    · rw [if_pos h1] at hb
      simpa [Smap.keys, or_assoc] using hb
    · rw [if_neg h1] at hb
      by_cases he : k = k'
      · rw [if_pos he] at hb
        exact Or.inr hb
      · rw [if_neg he] at hb
        simp only [Smap.keys, List.map_cons, List.mem_cons] at hb ⊢
        rcases hb with hb | hb
        · exact Or.inr (Or.inl hb)
        · rcases ih hb with hb' | hb'
          · exact Or.inl hb'
          · exact Or.inr (Or.inr hb')

theorem Smap.WF_insertKeep {α : Type} (m : Smap α) (k : String) (v : α)
    (hm : Smap.WF m) : Smap.WF (Smap.insertKeep m k v) := by
  induction m with
  | nil => simp [Smap.WF, Smap.insertKeep, Smap.keys]
  | cons kv rest ih =>
    obtain ⟨k', v'⟩ := kv
    simp only [Smap.WF, Smap.keys, List.map_cons, List.sorted_cons] at hm
    obtain ⟨hk', hrest⟩ := hm
    simp only [Smap.insertKeep]
    by_cases h1 : k.data < k'.data
    · rw [if_pos h1]
      have h1s : k < k' := (strLt_iff k k').mp h1
      simp only [Smap.WF, Smap.keys, List.map_cons, List.sorted_cons]
      refine ⟨?_, hk', hrest⟩
      intro b hb
      simp only [List.mem_cons] at hb
      rcases hb with rfl | hb
      · exact h1s
      · exact lt_trans h1s (hk' b hb)
    · rw [if_neg h1]
      by_cases he : k = k'
      · rw [if_pos he]
        simp only [Smap.WF, Smap.keys, List.map_cons, List.sorted_cons]
        exact ⟨hk', hrest⟩
      · rw [if_neg he]
        simp only [Smap.WF, Smap.keys, List.map_cons, List.sorted_cons]
        have hk'k : k' < k := by
          rcases lt_trichotomy k k' with h | h | h
          · exact absurd ((strLt_iff k k').mpr h) h1
          · exact absurd h he
          · exact h
        refine ⟨?_, ih hrest⟩
        intro b hb
        have hb' : b ∈ Smap.keys (Smap.insertKeep rest k v) := by
          simpa [Smap.keys] using hb
        rcases Smap.mem_keys_insertKeep rest k b v hb' with rfl | hb''
        · exact hk'k
        · exact hk' b (by simpa [Smap.keys] using hb'')

theorem Smap.lookup_insertKeep_of_some {α : Type} (m : Smap α) (k j : String)
    (v w : α) (hm : Smap.WF m) (h : Smap.lookup m j = some w) :
    Smap.lookup (Smap.insertKeep m k v) j = some w := by
  induction m with
  | nil => simp [Smap.lookup] at h
  | cons kv rest ih =>
    obtain ⟨k', v'⟩ := kv
    simp only [Smap.WF, Smap.keys, List.map_cons, List.sorted_cons] at hm
    obtain ⟨hk', hrest⟩ := hm
    simp only [Smap.insertKeep]
    by_cases h1 : k.data < k'.data
    · rw [if_pos h1]
      have h1s : k < k' := (strLt_iff k k').mp h1
      have hj : j ≠ k := by
        intro hjk
        have hmem : j ∈ Smap.keys ((k', v') :: rest) :=
          (Smap.lookup_isSome_iff_mem_keys _ j).mp (by simp [h])
        simp only [Smap.keys, List.map_cons, List.mem_cons] at hmem
        rcases hmem with h2 | h2
        · rw [← hjk] at h1s
          rw [h2] at h1s
          exact lt_irrefl k' h1s
        · have hlt : k' < j := hk' j (by simpa [Smap.keys] using h2)
          rw [hjk] at hlt
          exact absurd h1s (not_lt.mpr (le_of_lt hlt))
      simpa [Smap.lookup, hj] using h
    · rw [if_neg h1]
      by_cases he : k = k'
      · rw [if_pos he]
        exact h
      · rw [if_neg he]
        simp only [Smap.lookup] at h ⊢
        by_cases h2 : j = k'
        · simpa [h2] using h
        · rw [if_neg h2] at h ⊢
          exact ih hrest h

theorem Smap.lookup_insertKeep_self_of_none {α : Type} (m : Smap α) (k : String)
    (v : α) (h : Smap.lookup m k = none) :
    Smap.lookup (Smap.insertKeep m k v) k = some v := by
  induction m with
  | nil => simp [Smap.insertKeep, Smap.lookup]
  | cons kv rest ih =>
    obtain ⟨k', v'⟩ := kv
    simp only [Smap.lookup] at h
    by_cases h2 : k = k'
    · rw [if_pos h2] at h
      exact absurd h (by simp)
    · rw [if_neg h2] at h
      simp only [Smap.insertKeep]
      by_cases h1 : k.data < k'.data
      · rw [if_pos h1]
        simp [Smap.lookup]
      · rw [if_neg h1, if_neg h2]
        simp [Smap.lookup, h2, ih h]

theorem Smap.lookup_insertKeep_of_none_ne {α : Type} (m : Smap α) (k j : String)
    (v : α) (hj : j ≠ k) (h : Smap.lookup m j = none) :
    Smap.lookup (Smap.insertKeep m k v) j = none := by
  induction m with
  | nil => simp [Smap.insertKeep, Smap.lookup, hj]
  | cons kv rest ih =>
    obtain ⟨k', v'⟩ := kv
    simp only [Smap.lookup] at h
    by_cases h2 : j = k'
    · rw [if_pos h2] at h
      exact absurd h (by simp)
    · rw [if_neg h2] at h
      simp only [Smap.insertKeep]
      by_cases h1 : k.data < k'.data
      · rw [if_pos h1]
        simp [Smap.lookup, hj, h2, h]
      · by_cases he : k = k'
        · rw [if_neg h1, if_pos he]
          simp [Smap.lookup, h2, h]
        · rw [if_neg h1, if_neg he]
          simp [Smap.lookup, h2, ih h]

theorem Smap.lookup_mergeKeep_of_some {α : Type} (dst src : Smap α) (j : String)
    (w : α) (hwf : Smap.WF dst) (h : Smap.lookup dst j = some w) :
    Smap.lookup (Smap.mergeKeep dst src) j = some w := by
  induction src generalizing dst with
  | nil => exact h
  | cons kv rest ih =>
    obtain ⟨k, v⟩ := kv
    have hstep : Smap.mergeKeep dst ((k, v) :: rest)
        = Smap.mergeKeep (Smap.insertKeep dst k v) rest := rfl
    rw [hstep]
    exact ih (Smap.insertKeep dst k v) (Smap.WF_insertKeep dst k v hwf)
      (Smap.lookup_insertKeep_of_some dst k j v w hwf h)

theorem Smap.lookup_mergeKeep_of_none {α : Type} (dst src : Smap α) (j : String)
    (hwf : Smap.WF dst) (h : Smap.lookup dst j = none) :
    Smap.lookup (Smap.mergeKeep dst src) j = Smap.lookup src j := by
  induction src generalizing dst with
  | nil => exact h
  | cons kv rest ih =>
    obtain ⟨k, v⟩ := kv
    have hstep : Smap.mergeKeep dst ((k, v) :: rest)
        = Smap.mergeKeep (Smap.insertKeep dst k v) rest := rfl
    rw [hstep]
    by_cases hj : j = k
    · subst hj
      rw [Smap.lookup_mergeKeep_of_some (Smap.insertKeep dst j v) rest j v
        (Smap.WF_insertKeep dst j v hwf) (Smap.lookup_insertKeep_self_of_none dst j v h)]
      simp [Smap.lookup]
    · rw [ih (Smap.insertKeep dst k v) (Smap.WF_insertKeep dst k v hwf)
        (Smap.lookup_insertKeep_of_none_ne dst k j v hj h)]
      simp [Smap.lookup, hj]

theorem Smap.lookup_foldl_insertOver_isSome {α : Type} (pars : List Parameter)
    (mp : Smap α) (j : String) (f : Parameter → α)
    (h : (Smap.lookup mp j).isSome = true) :
    (Smap.lookup (pars.foldl (fun m q => Smap.insertOver m q.name (f q)) mp) j).isSome
      = true := by
  induction pars generalizing mp with
  | nil => exact h
  | cons q rest ih =>
    exact ih (Smap.insertOver mp q.name (f q))
      ((Smap.lookup_insertOver_isSome mp q.name j (f q)).mpr (Or.inr h))

theorem Smap.lookup_zip_isSome (ks : List String) (vs : List ℚ) (k : String)
    (hk : k ∈ ks) (hl : ks.length = vs.length) :
    (Smap.lookup (ks.zip vs) k).isSome = true := by
  induction ks generalizing vs with
  | nil => simp at hk
  | cons a ks ih =>
    cases vs with
    | nil => simp at hl
    | cons b vs =>
      show (Smap.lookup ((a, b) :: ks.zip vs) k).isSome = true
      simp only [Smap.lookup]
      by_cases h : k = a
      · simp [h]
      · have hk' : k ∈ ks := by
          rcases List.mem_cons.mp hk with h' | h'
          · exact absurd h' h
          · exact h'
        rw [if_neg h]
        exact ih vs hk' (by simpa using hl)

/-! ## Sorted-range set algebra -/

theorem setIntersection_eq_nil_iff (xs ys : List String)
    (hx : List.Sorted (· < ·) xs) (hy : List.Sorted (· < ·) ys) :
    setIntersection xs ys = [] ↔ ∀ a ∈ xs, a ∉ ys := by
  induction xs, ys using setIntersection.induct with
  | case1 ys => simp [setIntersection]
  | case2 x xs => simp [setIntersection]
  | case3 a as b bs hab ih =>
    have habs : a < b := (strLt_iff a b).mp hab
    rw [List.sorted_cons] at hy
    have hanotin : a ∉ b :: bs := by
      intro hmem
      rcases List.mem_cons.mp hmem with h | h
      · rw [h] at habs
        exact lt_irrefl b habs
      · exact absurd (lt_trans (hy.1 a h) habs) (lt_irrefl b)
    rw [List.sorted_cons] at hx
    have := ih hx.2 (List.sorted_cons.mpr hy)
    simp only [setIntersection, if_pos hab]
    rw [this]
    constructor
    · intro h
      intro x hxmem
      rcases List.mem_cons.mp hxmem with rfl | hxm
      · exact hanotin
      · exact h x hxm
    · intro h x hxm
      exact h x (List.mem_cons_of_mem a hxm)
  | case4 a as b bs hab hba ih =>
    have hbas : b < a := (strLt_iff b a).mp hba
    rw [List.sorted_cons] at hy
    have hbnotin : ∀ x ∈ a :: as, x ≠ b := by
      intro x hxm
      rcases List.mem_cons.mp hxm with rfl | hxm
      · exact fun he => absurd hbas (by rw [he]; exact lt_irrefl b)
      · rw [List.sorted_cons] at hx
        intro he
        rw [he] at hxm
        exact absurd (lt_trans hbas (hx.1 b hxm)) (lt_irrefl b)
    have := ih hx hy.2
    simp only [setIntersection, if_neg hab, if_pos hba]
    rw [this]
    constructor
    · intro h x hxm hmem
      rcases List.mem_cons.mp hmem with he | hmem'
      · exact hbnotin x hxm he
      · exact h x hxm hmem'
    · intro h x hxm hmem
      exact h x hxm (List.mem_cons_of_mem b hmem)
  | case5 a as b bs hab hba ih =>
    have habs : ¬a < b := fun h => hab ((strLt_iff a b).mpr h)
    have hbas : ¬b < a := fun h => hba ((strLt_iff b a).mpr h)
    have hae : a = b := le_antisymm (not_lt.mp hbas) (not_lt.mp habs)
    simp only [setIntersection, if_neg hab, if_neg hba]
    constructor
    · intro h
      exact absurd h (by simp)
    · intro h
      exact absurd (by rw [hae]; exact List.mem_cons_self b bs)
        (h a (List.mem_cons_self a as))

/-! ## Grid-integral lemmas -/

theorem foldl_add_range (f : ℕ → ℚ) (a : ℚ) (n : ℕ) :
    (List.range n).foldl (fun acc i => acc + f i) a
      = a + ∑ i in Finset.range n, f i := by
  induction n generalizing a with
  | zero => simp
  | succ n ih =>
    rw [List.range_succ, List.foldl_append, ih, Finset.sum_range_succ]
    simp [add_assoc]

theorem Decay3Body.cacheBody_eq_add (d : Decay3Body) (lo step : ℚ) (i j : ℕ)
    (acc : ℚ) :
    d.cacheBody lo step i j acc = acc + d.cacheTerm lo step i j := by
  simp only [Decay3Body.cacheBody, Decay3Body.cacheTerm]
  split
  · rfl
  · simp

theorem Decay3Body.cacheNorm_eq_gridIntegralShared (d : Decay3Body) :
    d.cacheNorm = d.gridIntegralShared := by
  unfold Decay3Body.cacheNorm Decay3Body.gridIntegralShared
  simp only [Decay3Body.cacheBody_eq_add, foldl_add_range, Finset.sum_product,
    zero_add]

/-! ## Generation-loop characterization -/

theorem Decay3Body.generateFrom_succ (d : Decay3Body) (rand : ℕ → ℚ)
    (k fuel : ℕ) :
    d.generateFrom rand k (fuel + 1)
      = if d.genAccept rand k = true then
          d.mkPoint (d.genPoint rand k).1 (d.genPoint rand k).2.1
            (d.genPoint rand k).2.2
        else d.generateFrom rand (k + 1) fuel := rfl

theorem Decay3Body.generateFrom_accept_or_sentinel (d : Decay3Body)
    (rand : ℕ → ℚ) (fuel k0 : ℕ) :
    (∃ j < fuel, d.genAccept rand (k0 + j) = true
        ∧ d.generateFrom rand k0 fuel
          = d.mkPoint (d.genPoint rand (k0 + j)).1 (d.genPoint rand (k0 + j)).2.1
              (d.genPoint rand (k0 + j)).2.2)
      ∨ d.generateFrom rand k0 fuel = d.mkPoint 0 0 0 := by
  induction fuel generalizing k0 with
  | zero => exact Or.inr rfl
  | succ fuel ih =>
    by_cases h : d.genAccept rand k0 = true
    · refine Or.inl ⟨0, Nat.succ_pos fuel, by simpa using h, ?_⟩
      simp [Decay3Body.generateFrom, h]
    · have hstep : d.generateFrom rand k0 (fuel + 1)
          = d.generateFrom rand (k0 + 1) fuel := by
        simp [Decay3Body.generateFrom, h]
      rcases ih (k0 + 1) with ⟨j, hj, hacc, heq⟩ | hsent
      · refine Or.inl ⟨j + 1, by omega, ?_, ?_⟩
        · have : k0 + (j + 1) = k0 + 1 + j := by omega
          rw [this]
          exact hacc
        · have : k0 + (j + 1) = k0 + 1 + j := by omega
          rw [hstep, this]
          exact heq
      · exact Or.inr (by rw [hstep]; exact hsent)

/-! ## Auxiliary-factor multiplication -/

theorem Decay3Body.evaluateFuncs_nil (d : Decay3Body) (h : d.funcs = [])
    (a b c : ℚ) : d.evaluateFuncs a b c = 1 := by
  simp [Decay3Body.evaluateFuncs, h]

theorem Decay3Body.mulFunc_ok (d : Decay3Body) (f : Function)
    (h : ∀ k ∈ Smap.keys f.varMap, (Smap.lookup d.varMap k).isSome = true) :
    d.mulFunc f = .ok (d.mulFuncResult f) := by
  have hall : (Smap.keys f.varMap).all
      (fun k => (Smap.lookup d.varMap k).isSome) = true := by
    rw [List.all_eq_true]
    exact fun x hx => h x hx
  simp [Decay3Body.mulFunc, hall]

/-- Claim C4: multiplying a decay density by a function depending on a
variable the density does not declare fails with the dependency error.
The source checks the function's whole variable map before any mutation,
so the thrown exception leaves the auxiliary list, parameter map and
normalization untouched — in this embedding the operation returns the
error without producing any successor state. -/
theorem mulFunc_foreign_var_fails (d : Decay3Body) (f : Function)
    (h : ∃ k ∈ Smap.keys f.varMap, Smap.lookup d.varMap k = none) :
    d.mulFunc f = .error .dependency := by
  obtain ⟨k, hk, hnone⟩ := h
  have hall : (Smap.keys f.varMap).all
      (fun k => (Smap.lookup d.varMap k).isSome) = false := by
    rw [List.all_eq_false]
    exact ⟨k, hk, by simp [hnone]⟩
  simp [Decay3Body.mulFunc, hall]

/-- Witness for C4 at a concrete density and function. -/
theorem mulFunc_foreign_var_fails_witness :
    dNone.mulFunc funcForeign = .error .dependency :=
  mulFunc_foreign_var_fails dNone funcForeign ⟨"q", by decide, by decide⟩

/-- Claim C5 (amended): on a successful auxiliary-factor multiplication
the function's parameters are range-inserted into the density's parameter
registry with name collisions KEEPING the density's existing entries
(`std::map::insert` does not overwrite), the function is appended to the
auxiliary list, and the stored normalization equals a full recache of the
updated density. -/
theorem mulFunc_success_merges_keeping_existing (d : Decay3Body) (f : Function)
    (hwf : Smap.WF d.parMap)
    (h : ∀ k ∈ Smap.keys f.varMap, (Smap.lookup d.varMap k).isSome = true) :
    d.mulFunc f = .ok (d.mulFuncResult f)
    ∧ (d.mulFuncResult f).funcs = d.funcs ++ [f]
    ∧ (∀ j w, Smap.lookup d.parMap j = some w →
        Smap.lookup (d.mulFuncResult f).parMap j = some w)
    ∧ (∀ j, Smap.lookup d.parMap j = none →
        Smap.lookup (d.mulFuncResult f).parMap j = Smap.lookup f.parMap j)
    ∧ (d.mulFuncResult f).norm = (d.mulFuncResult f).cacheNorm
    ∧ (d.mulFuncResult f).varMap = d.varMap := by
  refine ⟨d.mulFunc_ok f h, rfl, ?_, ?_, rfl, rfl⟩
  · intro j w hj
    exact Smap.lookup_mergeKeep_of_some d.parMap f.parMap j w hwf hj
  · intro j hj
    exact Smap.lookup_mergeKeep_of_none d.parMap f.parMap j hwf hj

/-- Witness for C5 at a concrete density and function. -/
theorem mulFunc_success_merges_keeping_existing_witness :
    dPar.mulFunc funcParA = .ok (dPar.mulFuncResult funcParA)
    ∧ (dPar.mulFuncResult funcParA).funcs = dPar.funcs ++ [funcParA] :=
  ⟨(mulFunc_success_merges_keeping_existing dPar funcParA
      (by unfold Smap.WF; decide) (by decide)).1,
   (mulFunc_success_merges_keeping_existing dPar funcParA
      (by unfold Smap.WF; decide) (by decide)).2.1⟩

/-- Counterexample to C5 as stated: the claim predicts that a parameter
name collision overwrites the density's entry with the function's; on the
concrete density `dPar` (`a ↦ 1`) and function `funcParA` (`a ↦ 2`) the
multiplication succeeds but keeps the density's entry `a ↦ 1`. -/
theorem mulFunc_collision_keeps_existing :
    dPar.mulFunc funcParA = .ok (dPar.mulFuncResult funcParA)
    ∧ Smap.lookup dPar.parMap "a" = some ⟨"a", 1, 0⟩
    ∧ Smap.lookup funcParA.parMap "a" = some ⟨"a", 2, 0⟩
    ∧ Smap.lookup (dPar.mulFuncResult funcParA).parMap "a" = some ⟨"a", 1, 0⟩
    ∧ (⟨"a", 1, 0⟩ : Parameter) ≠ ⟨"a", 2, 0⟩ := by
  refine ⟨dPar.mulFunc_ok funcParA (by decide), by decide, by decide, ?_, by decide⟩
  decide

/-! ## Composition legality -/

/-- Claim C6: sum composition (`+=` with a model or a sub-expression)
succeeds exactly when the two operands' sorted variable-name lists are
equal, otherwise it fails with the incompatible-variables error; the
check precedes the append, so on failure no successor state exists and
the composite is unmodified. -/
theorem plusAssign_succeeds_iff_equal_varNames (p q : Pdf) (m : PdfModel) :
    ((∃ r, p.plusAssignModel m = .ok r) ↔ p.varNames = m.varNames)
    ∧ (p.varNames ≠ m.varNames →
        p.plusAssignModel m = .error .incompatibleVariables)
    ∧ (p.varNames = m.varNames →
        p.plusAssignModel m = .ok ((p.appendModel m).appendOp .plus))
    ∧ ((∃ r, p.plusAssignPdf q = .ok r) ↔ p.varNames = q.varNames)
    ∧ (p.varNames ≠ q.varNames →
        p.plusAssignPdf q = .error .incompatibleVariables)
    ∧ (p.varNames = q.varNames →
        p.plusAssignPdf q = .ok ((p.appendPdf q).appendOp .plus)) := by
  refine ⟨?_, ?_, ?_, ?_, ?_, ?_⟩
  · by_cases h : p.varNames = m.varNames <;> simp [Pdf.plusAssignModel, h]
  · intro h; simp [Pdf.plusAssignModel, h]
  · intro h; simp [Pdf.plusAssignModel, h]
  · by_cases h : p.varNames = q.varNames <;> simp [Pdf.plusAssignPdf, h]
  · intro h; simp [Pdf.plusAssignPdf, h]
  · intro h; simp [Pdf.plusAssignPdf, h]

/-- Witness for C6: a concrete failing sum (disjoint variables) and a
concrete succeeding sum (identical variable list). -/
theorem plusAssign_succeeds_iff_equal_varNames_witness :
    (Pdf.ofModel mA).plusAssignModel mB = .error .incompatibleVariables
    ∧ (Pdf.ofModel mA).plusAssignModel mA
        = .ok (((Pdf.ofModel mA).appendModel mA).appendOp .plus) :=
  ⟨(plusAssign_succeeds_iff_equal_varNames (Pdf.ofModel mA) Pdf.empty mB).2.1
      (by decide),
   (plusAssign_succeeds_iff_equal_varNames (Pdf.ofModel mA) Pdf.empty mA).2.2.1
      (by decide)⟩

/-- Claim C7: product composition (`*=` with a model or a sub-expression)
succeeds exactly when the operands' variable-name sets are disjoint,
otherwise it fails with the overlapping-variables error before anything is
appended.  The sorted hypotheses state the `std::map` key-order invariant
under which the source's `std::set_intersection` computes the true
intersection. -/
theorem mulAssign_succeeds_iff_disjoint (p q : Pdf) (m : PdfModel)
    (hp : List.Sorted (· < ·) p.varNames)
    (hm : List.Sorted (· < ·) m.varNames)
    (hq : List.Sorted (· < ·) q.varNames) :
    ((∃ r, p.mulAssignModel m = .ok r) ↔ ∀ v ∈ p.varNames, v ∉ m.varNames)
    ∧ ((∃ v ∈ p.varNames, v ∈ m.varNames) →
        p.mulAssignModel m = .error .overlappingVariables)
    ∧ ((∀ v ∈ p.varNames, v ∉ m.varNames) →
        p.mulAssignModel m = .ok ((p.appendModel m).appendOp .mult))
    ∧ ((∃ r, p.mulAssignPdf q = .ok r) ↔ ∀ v ∈ p.varNames, v ∉ q.varNames)
    ∧ ((∃ v ∈ p.varNames, v ∈ q.varNames) →
        p.mulAssignPdf q = .error .overlappingVariables)
    ∧ ((∀ v ∈ p.varNames, v ∉ q.varNames) →
        p.mulAssignPdf q = .ok ((p.appendPdf q).appendOp .mult)) := by
  have h1 := setIntersection_eq_nil_iff p.varNames m.varNames hp hm
  have h2 := setIntersection_eq_nil_iff p.varNames q.varNames hp hq
  refine ⟨?_, ?_, ?_, ?_, ?_, ?_⟩
  · by_cases hint : setIntersection p.varNames m.varNames = []
    · have hok : p.mulAssignModel m = .ok ((p.appendModel m).appendOp .mult) := by
        simp [Pdf.mulAssignModel, hint]
      constructor
      · intro _
        exact h1.mp hint
      · intro _
        exact ⟨_, hok⟩
    · simp only [Pdf.mulAssignModel, if_pos (by simpa using hint)]
      constructor
      · rintro ⟨r, hr⟩
        exact absurd hr (by simp)
      · intro hall
        exact absurd (h1.mpr hall) hint
  · rintro ⟨v, hv1, hv2⟩
    have hint : setIntersection p.varNames m.varNames ≠ [] :=
      fun hnil => (h1.mp hnil) v hv1 hv2
    simp [Pdf.mulAssignModel, hint]
  · intro hall
    simp [Pdf.mulAssignModel, h1.mpr hall]
  · by_cases hint : setIntersection p.varNames q.varNames = []
    · have hok : p.mulAssignPdf q = .ok ((p.appendPdf q).appendOp .mult) := by
        simp [Pdf.mulAssignPdf, hint]
      constructor
      · intro _
        exact h2.mp hint
      · intro _
        exact ⟨_, hok⟩
    · simp only [Pdf.mulAssignPdf, if_pos (by simpa using hint)]
      constructor
      · rintro ⟨r, hr⟩
        exact absurd hr (by simp)
      · intro hall
        exact absurd (h2.mpr hall) hint
  · rintro ⟨v, hv1, hv2⟩
    have hint : setIntersection p.varNames q.varNames ≠ [] :=
      fun hnil => (h2.mp hnil) v hv1 hv2
    simp [Pdf.mulAssignPdf, hint]
  · intro hall
    simp [Pdf.mulAssignPdf, h2.mpr hall]

/-- Witness for C7: a concrete succeeding product (disjoint variables) and
a concrete failing product (a shared variable). -/
theorem mulAssign_succeeds_iff_disjoint_witness :
    (Pdf.ofModel mA).mulAssignModel mB
        = .ok (((Pdf.ofModel mA).appendModel mB).appendOp .mult)
    ∧ (Pdf.ofModel mA).mulAssignModel mA = .error .overlappingVariables :=
  ⟨(mulAssign_succeeds_iff_disjoint (Pdf.ofModel mA) Pdf.empty mB
      (by decide) (by decide) (by decide)).2.2.1 (by decide),
   (mulAssign_succeeds_iff_disjoint (Pdf.ofModel mA) Pdf.empty mA
      (by decide) (by decide) (by decide)).2.1 ⟨"x", by decide, by decide⟩⟩

/-! ## Positional evaluation arity -/

/-- Claim C8 (amended): the composite's positional `evaluate( values )`
fails with the argument-count error whenever the vector length differs
from the composite's variable count; the three-body density's positional
`evaluate( values )` instead dispatches on the length — it accepts BOTH
two values (deriving `mSq23` from the kinematic constraint) and three
values, and fails for every other length. -/
theorem evaluateV_length_dispatch (M : MathOracle) (p : Pdf) (d : Decay3Body)
    (vars : List ℚ) (a b c : ℚ) :
    (vars.length ≠ p.varMap.length →
        p.evaluateV M vars = .error .argumentCountMismatch)
    ∧ (vars.length ≠ 2 → vars.length ≠ 3 →
        d.evaluateV vars = .error .argumentCountMismatch)
    ∧ d.evaluateV [a, b] = .ok (d.evaluate2 a b)
    ∧ d.evaluateV [a, b, c] = .ok (d.evaluate3 a b c) := by
  refine ⟨?_, ?_, rfl, rfl⟩
  · intro h
    simp only [Pdf.evaluateV]
    rw [if_pos (Ne.symm h)]
  · intro h2 h3
    match vars, h2, h3 with
    | [], _, _ => rfl
    | [x], _, _ => rfl
    | [x, y], h2, _ => exact absurd rfl h2
    | [x, y, z], _, h3 => exact absurd rfl h3
    | x :: y :: z :: w :: rest, _, _ => rfl

/-- Witness for C8 at concrete inputs: the composite rejects a wrong
length, the density rejects length 4. -/
theorem evaluateV_length_dispatch_witness :
    (Pdf.ofModel mA).evaluateV trivOracle [] = .error .argumentCountMismatch
    ∧ dNone.evaluateV [0, 0, 0, 0] = .error .argumentCountMismatch :=
  ⟨(evaluateV_length_dispatch trivOracle (Pdf.ofModel mA) dNone [] 0 0 0).1
      (by decide),
   (evaluateV_length_dispatch trivOracle (Pdf.ofModel mA) dNone
      [0, 0, 0, 0] 0 0 0).2.1 (by decide) (by decide)⟩

/-- Counterexample to C8 as stated: the three-body density declares three
variables, yet its positional `evaluate` ACCEPTS the two-element vector
`[0, 0]` (returning a value rather than the argument-count error). -/
theorem decay_evaluateV_accepts_two :
    dNone.evaluateV [0, 0] = .ok 1
    ∧ (Smap.keys dNone.varMap).length = 3
    ∧ [(0 : ℚ), 0].length ≠ (Smap.keys dNone.varMap).length := by
  have hf : ∀ a b c : ℚ, dNone.evaluateFuncs a b c = 1 :=
    Decay3Body.evaluateFuncs_nil dNone rfl
  have h2 : dNone.evaluate2 0 0 = 1 := by
    simp only [Decay3Body.evaluate2, hf]
    norm_num [dNone, psNone, unitAmp, Amplitude.normSq]
  refine ⟨?_, rfl, by decide⟩
  show Except.ok (dNone.evaluate2 0 0) = Except.ok 1
  rw [h2]

/-! ## Unguarded division -/

/-- Claim C9: the binary division of `Pdf::operate` returns the raw
quotient with no check on the divisor, and evaluating a composed program
whose division has right operand 0 raises no error and returns the
unchecked quotient (rational division models the double quotient; its
value at divisor 0 is the carrier's convention). -/
theorem division_unguarded (M : MathOracle) (x y a : ℚ) :
    Pdf.operate M x y .div = .ok (x / y)
    ∧ Pdf.evaluate M (divProgram a 0) = .ok (a / 0)
    ∧ Pdf.evaluate M (divProgram x y) = .ok (x / y) := by
  exact ⟨rfl, rfl, rfl⟩

/-! ## commonVars -/

/-- Claim C1 (code bug): on the pure product `A × B` of two single-variable
models over disjoint variables, built through the public API (token program
`m m b`), `commonVars()` returns the EMPTY list instead of the union
`["x", "y"]`: binary operators are recorded as the token character `b`,
which the operator branch of `commonVars()` compares against `+` and `*`
only, so the cleared vector is pushed; moreover the model-leaf accumulator
`varNames` is never cleared, so the second leaf pushes `["x", "y"]` instead
of `["y"]`. -/
theorem commonVars_product_returns_empty :
    (Pdf.ofModel mA).mulAssignModel mB = .ok pdfAB
    ∧ Smap.keys mA.varMap = ["x"]
    ∧ Smap.keys mB.varMap = ["y"]
    ∧ pdfAB.commonVars = .ok []
    ∧ ([] : List String) ≠ ["x", "y"] := by
  refine ⟨?_, rfl, rfl, ?_, by decide⟩
  · have h : setIntersection (Pdf.ofModel mA).varNames mB.varNames = [] :=
      (setIntersection_eq_nil_iff _ _ (by decide) (by decide)).mpr (by decide)
    simp [Pdf.mulAssignModel, h, pdfAB]
  · rfl

/-! ## Normalization grid integral -/

/-- Claim C2 (amended): after `cache()` the stored normalization equals the
400×400 midpoint-rule grid integral in which BOTH axes place their bin
centers from the `mSq12` bounds with one shared step (not each axis's own
bounds); each bin center accepted by the containment test contributes
`|amplitude|² × auxiliaryProduct`, rejected centers contribute zero, and
the accumulated sum is multiplied by the bin area `step²`. -/
theorem cache_stores_grid_integral (d : Decay3Body) :
    (d.cache).norm = d.gridIntegralShared :=
  d.cacheNorm_eq_gridIntegralShared

theorem dAsym_cacheTerm (lo step : ℚ) (i j : ℕ) :
    dAsym.cacheTerm lo step i j = 1 := by
  have hf : ∀ a b c : ℚ, dAsym.evaluateFuncs a b c = 1 :=
    Decay3Body.evaluateFuncs_nil dAsym rfl
  simp only [Decay3Body.cacheTerm, hf]
  norm_num [dAsym, psAsym, unitAmp, Amplitude.normSq]

/-- Counterexample to C2 as stated: on the density `dAsym`, whose `mSq13`
bounds `[0,2]` differ from its `mSq12` bounds `[0,1]`, the normalization
stored by `cache()` is 1 while the claim's integral — bin centers from
each axis's own bounds, bin area `step12 × step13` — is 2. -/
theorem cache_ownAxes_counterexample :
    (dAsym.cache).norm = 1
    ∧ dAsym.gridIntegralOwnAxes = 2
    ∧ (dAsym.cache).norm ≠ dAsym.gridIntegralOwnAxes := by
  have h1 : (dAsym.cache).norm = 1 := by
    show dAsym.cacheNorm = 1
    rw [Decay3Body.cacheNorm_eq_gridIntegralShared]
    unfold Decay3Body.gridIntegralShared
    simp only [dAsym_cacheTerm, Finset.sum_const, Finset.card_product,
      Finset.card_range, nsmul_eq_mul]
    norm_num [dAsym, psAsym]
  have hf : ∀ a b c : ℚ, dAsym.evaluateFuncs a b c = 1 :=
    Decay3Body.evaluateFuncs_nil dAsym rfl
  have h2 : dAsym.gridIntegralOwnAxes = 2 := by
    unfold Decay3Body.gridIntegralOwnAxes
    simp only [hf]
    norm_num [dAsym, psAsym, unitAmp, Amplitude.normSq, Finset.sum_const,
      Finset.card_product, Finset.card_range, nsmul_eq_mul]
  refine ⟨h1, h2, ?_⟩
  rw [h1, h2]
  norm_num

/-! ## Generation -/

/-- Claim C3 (amended): every point returned by `generate()` is either a
candidate that was accepted by the envelope test — a flat draw in
`[0, maxPdf)` strictly below the density value at the candidate — within
the 10000-attempt budget, or the degenerate all-zero fallback point; the
phase-space containment test is never consulted by the sampler. -/
theorem generate_envelope_accept_or_sentinel (d : Decay3Body) (rand : ℕ → ℚ) :
    (∃ k, k < 10000 ∧ d.genAccept rand k = true
        ∧ d.generate rand = d.mkPoint (d.genPoint rand k).1
            (d.genPoint rand k).2.1 (d.genPoint rand k).2.2)
    ∨ d.generate rand = d.mkPoint 0 0 0 := by
  have h := d.generateFrom_accept_or_sentinel rand 10000 0
  simpa [Decay3Body.generate] using h

/-- Counterexample to C3 as stated: on the density `dNone`, whose
containment test rejects every point, `generate()` with an all-zero
random stream accepts its first candidate `(0, 0, 4)` — a point that
fails the containment test and is not the all-zero sentinel. -/
theorem generate_ignores_containment :
    ¬ ((dNone.ps.contains
          ((Smap.lookup (dNone.generate (fun _ => 0)) "m12").getD 0)
          ((Smap.lookup (dNone.generate (fun _ => 0)) "m13").getD 0)
          ((Smap.lookup (dNone.generate (fun _ => 0)) "m23").getD 0)) = true
        ∨ dNone.generate (fun _ => 0) = dNone.mkPoint 0 0 0) := by
  have hf : ∀ a b c : ℚ, dNone.evaluateFuncs a b c = 1 :=
    Decay3Body.evaluateFuncs_nil dNone rfl
  have hpoint : dNone.genPoint (fun _ => 0) 0 = (0, 0, 4) := by
    unfold Decay3Body.genPoint flatOut
    norm_num [dNone, psNone, Decay3Body.gen12min, Decay3Body.gen12max,
      Decay3Body.gen13min, Decay3Body.gen13max, PhaseSpace.mSqSum,
      PhaseSpace.mSqMother, PhaseSpace.mSq1, PhaseSpace.mSq2, PhaseSpace.mSq3]
  have hacc : dNone.genAccept (fun _ => 0) 0 = true := by
    unfold Decay3Body.genAccept
    rw [hpoint]
    have hval : dNone.evaluate3 0 0 4 = 1 := by
      simp only [Decay3Body.evaluate3, hf]
      norm_num [dNone, psNone, unitAmp, Amplitude.normSq]
    dsimp only
    rw [hval]
    norm_num [flatOut, dNone]
  have hgen : dNone.generate (fun _ => 0) = dNone.mkPoint 0 0 4 := by
    show dNone.generateFrom (fun _ => 0) 0 10000 = dNone.mkPoint 0 0 4
    rw [show (10000 : ℕ) = 9999 + 1 from rfl,
      Decay3Body.generateFrom_succ, if_pos hacc, hpoint]
  rw [hgen]
  refine not_or.mpr ⟨?_, ?_⟩
  · decide
  · decide

/-! ## Composer invariant -/

/-- Claim C10: every public append and compound-assignment operation of
the composer preserves the invariant that each variable and parameter name
declared by an embedded model is a key of the composite's own variable and
parameter maps (for sub-expression operands, provided the operand itself
satisfies the invariant); and under the invariant, the per-model lookups
into the name-keyed value map built by the vectorized `evaluate( vars )`
are total. -/
theorem composer_invariant_preserved (p q : Pdf) (m : PdfModel)
    (par : Parameter) (e : ParameterExpr) (c : ℚ) (op : Op) (hp : p.Inv) :
    (p.appendModel m).Inv
    ∧ (q.Inv → (p.appendPdf q).Inv)
    ∧ (p.appendParameter par).Inv
    ∧ (p.appendParamExpr e).Inv
    ∧ (p.appendConst c).Inv
    ∧ (p.appendOp op).Inv
    ∧ (∀ r, p.plusAssignModel m = .ok r → r.Inv)
    ∧ (∀ r, p.mulAssignModel m = .ok r → r.Inv)
    ∧ (∀ r, q.Inv → p.plusAssignPdf q = .ok r → r.Inv)
    ∧ (∀ r, q.Inv → p.mulAssignPdf q = .ok r → r.Inv)
    ∧ (p.mulAssignParameter par).Inv
    ∧ (p.divAssignParameter par).Inv
    ∧ (p.mulAssignParamExpr e).Inv
    ∧ (p.divAssignParamExpr e).Inv
    ∧ (p.mulAssignConst c).Inv
    ∧ (p.divAssignConst c).Inv
    ∧ (∀ vars : List ℚ, vars.length = p.varMap.length →
        ∀ mo ∈ p.pdfs, ∀ k ∈ Smap.keys mo.varMap,
          (Smap.lookup ((Smap.keys p.varMap).zip vars) k).isSome = true) := by
  have hAppendModel : ∀ (p' : Pdf) (m' : PdfModel), p'.Inv →
      (p'.appendModel m').Inv := by
    intro p' m' hp' mo hmo
    rcases List.mem_append.mp hmo with h | h
    · obtain ⟨hv, hpar⟩ := hp' mo h
      exact ⟨fun k hk => (Smap.lookup_mergeKeep_isSome _ _ _).mpr (Or.inl (hv k hk)),
        fun k hk => (Smap.lookup_mergeKeep_isSome _ _ _).mpr (Or.inl (hpar k hk))⟩
    · have hmm : mo = m' := by simpa using h
      subst hmm
      exact ⟨fun k hk => (Smap.lookup_mergeKeep_isSome _ _ _).mpr
          (Or.inr ((Smap.lookup_isSome_iff_mem_keys _ _).mpr hk)),
        fun k hk => (Smap.lookup_mergeKeep_isSome _ _ _).mpr
          (Or.inr ((Smap.lookup_isSome_iff_mem_keys _ _).mpr hk))⟩
  have hAppendPdf : ∀ (p' q' : Pdf), p'.Inv → q'.Inv →
      (p'.appendPdf q').Inv := by
    intro p' q' hp' hq' mo hmo
    rcases List.mem_append.mp hmo with h | h
    · obtain ⟨hv, hpar⟩ := hp' mo h
      exact ⟨fun k hk => (Smap.lookup_mergeKeep_isSome _ _ _).mpr (Or.inl (hv k hk)),
        fun k hk => (Smap.lookup_mergeKeep_isSome _ _ _).mpr (Or.inl (hpar k hk))⟩
    · obtain ⟨hv, hpar⟩ := hq' mo h
      exact ⟨fun k hk => (Smap.lookup_mergeKeep_isSome _ _ _).mpr (Or.inr (hv k hk)),
        fun k hk => (Smap.lookup_mergeKeep_isSome _ _ _).mpr (Or.inr (hpar k hk))⟩
  have hAppendPar : ∀ (p' : Pdf) (par' : Parameter), p'.Inv →
      (p'.appendParameter par').Inv := by
    intro p' par' hp' mo hmo
    obtain ⟨hv, hpar⟩ := hp' mo hmo
    exact ⟨hv, fun k hk =>
      (Smap.lookup_insertOver_isSome _ _ _ _).mpr (Or.inr (hpar k hk))⟩
  have hAppendExpr : ∀ (p' : Pdf) (e' : ParameterExpr), p'.Inv →
      (p'.appendParamExpr e').Inv := by
    intro p' e' hp' mo hmo
    obtain ⟨hv, hpar⟩ := hp' mo hmo
    refine ⟨hv, fun k hk => ?_⟩
    exact Smap.lookup_foldl_insertOver_isSome e'.pars p'.parMap k
      (fun q' => q') (hpar k hk)
  have hOpInv : ∀ (p' : Pdf) (op' : Op), p'.Inv → (p'.appendOp op').Inv :=
    fun p' op' hp' => hp'
  have hConstInv : ∀ (p' : Pdf) (c' : ℚ), p'.Inv → (p'.appendConst c').Inv :=
    fun p' c' hp' => hp'
  refine ⟨hAppendModel p m hp, fun hq => hAppendPdf p q hp hq,
    hAppendPar p par hp, hAppendExpr p e hp, hConstInv p c hp, hOpInv p op hp,
    ?_, ?_, ?_, ?_,
    hOpInv _ .mult (hAppendPar p par hp), hOpInv _ .div (hAppendPar p par hp),
    hOpInv _ .mult (hAppendExpr p e hp), hOpInv _ .div (hAppendExpr p e hp),
    hOpInv _ .mult (hConstInv p c hp), hOpInv _ .div (hConstInv p c hp), ?_⟩
  · intro r hr
    by_cases h : p.varNames = m.varNames
    · simp only [Pdf.plusAssignModel, h, ne_eq, not_true_eq_false, if_false,
        Except.ok.injEq] at hr
      rw [← hr]
      exact hOpInv _ .plus (hAppendModel p m hp)
    · simp [Pdf.plusAssignModel, h] at hr
  · intro r hr
    by_cases h : setIntersection p.varNames m.varNames = []
    · simp only [Pdf.mulAssignModel, h, ne_eq, not_true_eq_false, if_false,
        Except.ok.injEq] at hr
      rw [← hr]
      exact hOpInv _ .mult (hAppendModel p m hp)
    · simp [Pdf.mulAssignModel, h] at hr
  · intro r hq hr
    by_cases h : p.varNames = q.varNames
    · simp only [Pdf.plusAssignPdf, h, ne_eq, not_true_eq_false, if_false,
        Except.ok.injEq] at hr
      rw [← hr]
      exact hOpInv _ .plus (hAppendPdf p q hp hq)
    · simp [Pdf.plusAssignPdf, h] at hr
  · intro r hq hr
    by_cases h : setIntersection p.varNames q.varNames = []
    · simp only [Pdf.mulAssignPdf, h, ne_eq, not_true_eq_false, if_false,
        Except.ok.injEq] at hr
      rw [← hr]
      exact hOpInv _ .mult (hAppendPdf p q hp hq)
    · simp [Pdf.mulAssignPdf, h] at hr
  · intro vars hlen mo hmo k hk
    have hsome := (hp mo hmo).1 k hk
    have hmem : k ∈ Smap.keys p.varMap :=
      (Smap.lookup_isSome_iff_mem_keys _ _).mp hsome
    exact Smap.lookup_zip_isSome (Smap.keys p.varMap) vars k hmem
      (by simpa [Smap.keys] using hlen.symm)

/-- Witness for C10 at a concrete composite. -/
theorem composer_invariant_preserved_witness :
    ((Pdf.ofModel mA).appendModel mB).Inv :=
  (composer_invariant_preserved (Pdf.ofModel mA) Pdf.empty mB ⟨"t", 0, 0⟩
    ⟨[], [], [], []⟩ 0 .plus (by unfold Pdf.Inv; decide)).1

end CFit
